import Mathlib

/-!
Verification of the agent execution engine of `ai-agents-from-scratch-golang`.

This file gives a shallow embedding, in Lean 4, of the Go source under
`pkg/agents/react.go`, `pkg/core/context.go` and the `core`/`tools` portions of
the concatenated core file (Runnable combinators, message model, tool registry),
and proves or refutes the frozen specification claims about them.

Modelling conventions:
* Go strings are modelled by `String`; the scanning primitives of Go's
  `strings` package (`Split`, `HasPrefix`, `TrimSpace`, `TrimPrefix`,
  `Contains`, `Index`, `Join`) are re-implemented over `List Char` so that
  every definition evaluates by kernel reduction.  The marker protocol is
  plain ASCII, where byte indices and rune indices coincide.
* A Go `(T, error)` return is `Except String T`; a Go `error` value is its
  rendered message string.
* The LLM backend (`LlamaCppLLM.Invoke`) is an external collaborator: it is a
  parameter `model : String → Except String String` mapping the prompt to the
  generated text or to an invocation error.
* `encoding/json.Unmarshal` into `map[string]interface{}` is an external
  library call; it is a parameter `decode : ArgDecoder`.
* Goroutine-based code (`Batch`, `Stream`, `RunnableParallel`) is data-race
  free by construction (each task writes its own pre-sized slot, and the
  caller joins on all tasks before reading), so its observable outcome is
  timing-independent and is modelled by the corresponding pure function.
-/

/-! ## Go `strings` primitives over `List Char` -/

/-- `strings.Split(s, sep)` for a one-character separator (the agent only ever
splits on `"\n"`). -/
def splitOnChar (sep : Char) : List Char → List (List Char)
  | [] => [[]]
  | c :: rest =>
    let r := splitOnChar sep rest
    if c = sep then [] :: r
    else match r with
      | [] => [[c]]
      | grp :: grps => (c :: grp) :: grps

/-- The white-space predicate of Go's `strings.TrimSpace` (`unicode.IsSpace`),
restricted to the ASCII range: space, `\t`, `\n`, `\v`, `\f`, `\r`. -/
def goIsSpace (c : Char) : Bool :=
  c = ' ' || c = '\t' || c = '\n' || c = Char.ofNat 11 || c = Char.ofNat 12 || c = '\r'

/-- `strings.TrimSpace` on the character-list view. -/
def goTrimSpace (cs : List Char) : List Char :=
  ((cs.dropWhile goIsSpace).reverse.dropWhile goIsSpace).reverse

/-- `strings.Index(s, pat)`: position of the first occurrence of `pat` in `s`,
or `none` when absent (Go returns `-1`). -/
def subIdx : List Char → List Char → Option Nat
  | s, pat =>
    if pat.isPrefixOf s then some 0
    else match s with
      | [] => none
      | _ :: rest => (subIdx rest pat).map (· + 1)

/-- `strings.Contains(s, pat)`. -/
def goContains (s pat : String) : Bool :=
  (subIdx s.data pat.data).isSome

/-- `strings.Join(elems, sep)`. -/
def goJoin (sep : String) : List String → String
  | [] => ""
  | [s] => s
  | s :: rest => s ++ sep ++ goJoin sep rest

/-! ## Tool registry and executor (`pkg/tools`, file `tools.go`) -/

/-- The JSON value universe: the shape of everything Go stores in a
`map[string]interface{}` after `encoding/json` decoding.  Numbers are modelled
as integers (the only numeric payloads in the core are millisecond
timestamps). -/
inductive JValue where
  | jnull
  | jbool (b : Bool)
  | jnum (n : Int)
  | jstr (s : String)
  | jarr (elems : List JValue)
  | jobj (fields : List (String × JValue))

/-- A decoded `map[string]interface{}` argument bundle. -/
abbrev ArgsMap := List (String × JValue)

/-- The external `json.Unmarshal` collaborator: raw argument payload to decoded
map, or a decode error. -/
abbrev ArgDecoder := String → Except String ArgsMap

/-- A registered tool: `Name()`, `Description()` and `Execute(ctx, args)`.
(`ArgsSchema()` is only rendered into OpenAI-style function definitions, which
no claim touches.) -/
structure GoTool where
  name : String
  description : String
  exec : ArgsMap → Except String String

/-- `ToolRegistry.Get`: name lookup.  The registry is a snapshot of the Go
map's contents; `GetAll` is the same snapshot in the map's (unspecified)
iteration order. -/
def registryGet (reg : List GoTool) (name : String) : Option GoTool :=
  reg.find? (fun t => t.name == name)

/-- `ToolRegistry.ExecuteTool(ctx, name, argsJSON)`: look the tool up
(`"tool not found: <name>"` when absent), decode the payload unless it is
empty (`"failed to parse arguments: <err>"` on failure), then run the tool. -/
def executeTool (decode : ArgDecoder) (reg : List GoTool) (name argsJSON : String) :
    Except String String :=
  match registryGet reg name with
  | none => .error ("tool not found: " ++ name)
  | some tool =>
    match (if argsJSON = "" then Except.ok [] else decode argsJSON) with
    | .error e => .error ("failed to parse arguments: " ++ e)
    | .ok args => tool.exec args

/-! ## ReAct agent (`pkg/agents/react.go`) -/

/-- One step of the `parseAction` line scan: a line with the `"Action:"`
marker overwrites the action, otherwise a line with the `"Action Input:"`
marker overwrites the argument text (Go's `if`/`else if`). -/
def parseActionLine (acc : String × String) (line : List Char) : String × String :=
  if "Action:".data.isPrefixOf line then
    (⟨goTrimSpace (line.drop "Action:".data.length)⟩, acc.2)
  else if "Action Input:".data.isPrefixOf line then
    (acc.1, ⟨goTrimSpace (line.drop "Action Input:".data.length)⟩)
  else acc

/-- `ReActAgent.parseAction`: split the response on newlines and scan every
line, each match overwriting the previous value
(`strings.TrimSpace(strings.TrimPrefix(line, marker))`). -/
def parseAction (response : String) : String × String :=
  (splitOnChar '\n' response.data).foldl parseActionLine ("", "")

/-- `ReActAgent.extractFinalAnswer`: everything after the first
`"Final Answer:"` marker, white-space trimmed; the whole response when the
marker is absent. -/
def extractFinalAnswer (response : String) : String :=
  match subIdx response.data "Final Answer:".data with
  | some idx => ⟨goTrimSpace (response.data.drop (idx + "Final Answer:".data.length))⟩
  | none => response

/-- `ReActAgent.buildSystemPrompt`: tool descriptions plus the fixed ReAct
format preamble. -/
def buildSystemPrompt (reg : List GoTool) : String :=
  let toolsDesc := reg.foldl (fun acc t => acc ++ "- " ++ t.name ++ ": " ++ t.description ++ "\n") ""
  let names := goJoin ", " (reg.map (fun t => t.name))
  "You are a helpful assistant that can use tools to answer questions.\n\nAvailable tools:\n"
    ++ toolsDesc
    ++ "\nUse the following format:\n\nQuestion: the input question you must answer\nThought: you should always think about what to do\nAction: the action to take, should be one of ["
    ++ names
    ++ "]\nAction Input: the input to the action\nObservation: the result of the action\n... (this Thought/Action/Action Input/Observation can repeat N times)\nThought: I now know the final answer\nFinal Answer: the final answer to the original input question\n\nBegin!"

/-- Outcome of `ReActAgent.Run`: the returned `(string, error)` pair, the
scratchpad (raw responses and observations, in append order), and the number
of LLM invocations performed. -/
structure RunOut where
  result : Except String String
  scratch : List String
  llmCalls : Nat

/-- The iteration loop of `ReActAgent.Run`, with the remaining iteration
budget as fuel.  Each iteration invokes the model once; an invocation error is
fatal (`"LLM invocation failed: <err>"`); a response containing `"Action:"`
triggers tool execution whose error is rendered as the observation
(`"Error: <err>"`); otherwise a `"Final Answer:"` response returns the
extracted answer; otherwise the raw response is appended to the prompt.
Exhausting the budget returns
`"max iterations reached without final answer"`. -/
def runLoop (model : String → Except String String) (reg : List GoTool) (decode : ArgDecoder) :
    Nat → String → List String → RunOut
  | 0, _, scratch => ⟨.error "max iterations reached without final answer", scratch, 0⟩
  | fuel + 1, prompt, scratch =>
    match model prompt with
    | .error e => ⟨.error ("LLM invocation failed: " ++ e), scratch, 1⟩
    | .ok response =>
      let scratch1 := scratch ++ [response]
      if goContains response "Action:" then
        let pa := parseAction response
        let observation :=
          match executeTool decode reg pa.1 pa.2 with
          | .ok s => s
          | .error e => "Error: " ++ e
        let out := runLoop model reg decode fuel
          (prompt ++ "\nObservation: " ++ observation ++ "\n\nThought:")
          (scratch1 ++ [observation])
        ⟨out.result, out.scratch, out.llmCalls + 1⟩
      else if goContains response "Final Answer:" then
        ⟨.ok (extractFinalAnswer response), scratch1, 1⟩
      else
        let out := runLoop model reg decode fuel (prompt ++ response ++ "\n\n") scratch1
        ⟨out.result, out.scratch, out.llmCalls + 1⟩

/-- `ReActAgent.Run(ctx, query)` with `maxIter` iterations: build the initial
prompt and run the loop with an empty scratchpad. -/
def runReAct (model : String → Except String String) (reg : List GoTool) (decode : ArgDecoder)
    (query : String) (maxIter : Nat) : RunOut :=
  runLoop model reg decode maxIter
    (buildSystemPrompt reg ++ "\n\nQuestion: " ++ query ++ "\n\nThought:") []

/-! ## Composable unit abstraction (`pkg/core`, runnable portion and `context.go`)

`interface{}`-typed inputs and outputs become type parameters.  Within one
call, `ctx` and `config` are threaded unchanged to every inner `Invoke`, so
for a fixed `ctx`/`config` each runnable's `Invoke` is one function
`input → (output, error)`; the combinator claims quantify over such
functions. -/

/-- An observer `Callback` (`OnStart`/`OnEnd`/`OnError`); each hook returns
`some msg` to signal the error it would return, `none` for success.  The
`ctx`/`runnable` arguments, used only for diagnostics, are elided. -/
structure GoCallback (α β : Type) where
  onStart : α → Option String
  onEnd : β → Option String
  onError : String → Option String

/-- `CallbackManager.HandleStart`: notify in order, stopping at the first
callback error. -/
def handleStart {α β : Type} (cbs : List (GoCallback α β)) (input : α) : Option String :=
  match cbs with
  | [] => none
  | cb :: rest =>
    match cb.onStart input with
    | some e => some e
    | none => handleStart rest input

/-- `CallbackManager.HandleEnd`: notify in order, stopping at the first
callback error. -/
def handleEnd {α β : Type} (cbs : List (GoCallback α β)) (output : β) : Option String :=
  match cbs with
  | [] => none
  | cb :: rest =>
    match cb.onEnd output with
    | some e => some e
    | none => handleEnd rest output

/-- `CallbackManager.HandleError`: notify in order, stopping at the first
callback error. -/
def handleError {α β : Type} (cbs : List (GoCallback α β)) (err : String) : Option String :=
  match cbs with
  | [] => none
  | cb :: rest =>
    match cb.onError err with
    | some e => some e
    | none => handleError rest err

/-- The execution `Config` of `context.go`. -/
structure GoConfig (α β : Type) where
  callbacks : List (GoCallback α β)
  tags : List String
  metadata : List (String × JValue)
  maxRetries : Int
  timeout : Int

/-- `NewConfig()`: the defaults substituted for a `nil` config. -/
def newConfig {α β : Type} : GoConfig α β :=
  ⟨[], [], [], 3, 0⟩

/-- `BaseRunnable.Invoke(ctx, input, config)` around an overridable
`call` body: `HandleStart` first (its error returned as-is), then `call`;
on a call error, `HandleError` — a callback error there is wrapped together
with the original error; on success, `HandleEnd` — a callback error there is
returned as-is, dropping the output. -/
def BaseRunnable.invoke {α β : Type} (call : α → Except String β)
    (config : Option (GoConfig α β)) (input : α) : Except String β :=
  let cfg := config.getD newConfig
  match handleStart cfg.callbacks input with
  | some e => .error e
  | none =>
    match call input with
    | .error err =>
      match handleError cfg.callbacks err with
      | some cbErr => .error ("callback error: " ++ cbErr ++ ", original error: " ++ err)
      | none => .error err
    | .ok output =>
      match handleEnd cfg.callbacks output with
      | some e => .error e
      | none => .ok output

/-- `BaseRunnable.Stream`: run one full `Invoke` in a goroutine and emit its
result on the channel, emitting nothing when `Invoke` errors; the value is
the list of items sent before the channel closes.  (The returned `error` of
`Stream` itself is always `nil`.) -/
def BaseRunnable.stream {α β : Type} (invoke : α → Except String β) (input : α) : List β :=
  match invoke input with
  | .error _ => []
  | .ok r => [r]

/-- First entry of the `errors` slice that is non-`nil`, mirroring the
post-join scan loop of `BaseRunnable.Batch`. -/
def firstError {α : Type} : List (Except String α) → Option String
  | [] => none
  | .error e :: _ => some e
  | .ok _ :: rest => firstError rest

/-- `BaseRunnable.Batch`: one goroutine per input writes
`results[idx], errors[idx] = Invoke(inputs[idx])`; after joining on all of
them, the first non-`nil` error (in index order) is returned alone, else the
results slice. -/
def BaseRunnable.batch {α β : Type} (invoke : α → Except String β) (inputs : List α) :
    Except String (List β) :=
  match firstError (inputs.map invoke) with
  | some e => .error e
  | none => .ok ((inputs.map invoke).filterMap Except.toOption)

/-- `RunnableSequence.Invoke`: feed the running output through each step,
short-circuiting on the first step error. -/
def RunnableSequence.invoke {α : Type} (steps : List (α → Except String α)) (input : α) :
    Except String α :=
  match steps with
  | [] => .ok input
  | step :: rest =>
    match step input with
    | .error e => .error e
    | .ok out => RunnableSequence.invoke rest out

/-- `BaseRunnable.Pipe(other)`: `NewRunnableSequence([self, other])`, whose
`Invoke` is the two-step sequence. -/
def BaseRunnable.pipe {α : Type} (self other : α → Except String α) : α → Except String α :=
  RunnableSequence.invoke [self, other]

/-! ## Message model (`pkg/core`, message portion)

`json.Marshal` of a `map[string]interface{}` emits the entries with sorted
keys, so two maps marshal to the same bytes exactly when they are equal as
maps.  The canonical serialized form of a message is therefore modelled as
the finite map itself, represented extensionally as a function
`String → Option JValue`; `ToJSON` builds it exactly the way the Go code
builds its `data` map (fixed fields first, then every `AdditionalKwargs`
entry overwriting). -/

/-- A JSON object in its map reading: key to value. -/
abbrev JObj := String → Option JValue

/-- `ToolCallFunction`: target name and raw argument payload. -/
structure ToolCallFunction where
  name : String
  arguments : String

/-- `ToolCall`: `{id, type, function, args(omitempty)}`. -/
structure ToolCall where
  id : String
  type : String
  function : ToolCallFunction
  args : List (String × JValue)

/-- `json.Marshal` of a `ToolCall` struct: fields in declaration order, with
`args` omitted when empty. -/
def encodeToolCall (tc : ToolCall) : JValue :=
  .jobj ([("id", .jstr tc.id), ("type", .jstr tc.type),
      ("function", .jobj [("name", .jstr tc.function.name),
        ("arguments", .jstr tc.function.arguments)])] ++
    (match tc.args with
     | [] => []
     | p :: ps => [("args", .jobj (p :: ps))]))

/-- `json.Marshal` of a `[]ToolCall`. -/
def encodeToolCalls (tcs : List ToolCall) : JValue :=
  .jarr (tcs.map encodeToolCall)

/-- Modelled from the spec: the repository serializes messages (`ToJSON`) but
contains no deserializer, so the inverse is modelled from §4.2's description
of the serialized form.  Decoding a single tool call accepts exactly the
canonical `encodeToolCall` images (strict canonical decoding), first the
inner `function` object. -/
def decodeToolCallFunction : JValue → Option ToolCallFunction
  | .jobj [("name", .jstr n), ("arguments", .jstr a)] => some ⟨n, a⟩
  | _ => none

/-- Modelled from the spec: strict canonical decoding of one serialized tool
call (see `decodeToolCallFunction`). -/
def decodeToolCall : JValue → Option ToolCall
  | .jobj [("id", .jstr i), ("type", .jstr t), ("function", fv)] =>
    (decodeToolCallFunction fv).map fun f => ⟨i, t, f, []⟩
  | .jobj [("id", .jstr i), ("type", .jstr t), ("function", fv), ("args", .jobj (p :: ps))] =>
    (decodeToolCallFunction fv).map fun f => ⟨i, t, f, p :: ps⟩
  | _ => none

/-- Modelled from the spec: decode a list of serialized tool calls,
element-wise, failing when any element fails. -/
def decodeToolCallList : List JValue → Option (List ToolCall)
  | [] => some []
  | v :: rest =>
    match decodeToolCall v with
    | none => none
    | some tc =>
      match decodeToolCallList rest with
      | none => none
      | some tcs => some (tc :: tcs)

/-- Modelled from the spec: decode a serialized `tool_calls` value (a JSON
array of tool calls). -/
def decodeToolCalls : JValue → Option (List ToolCall)
  | .jarr elems => decodeToolCallList elems
  | _ => none

/-- `BaseMessage`: identifier, content, timestamp and the free-form
`AdditionalKwargs` side-channel map.  `generateMessageID` and
`time.Now()` are nondeterministic, so the fields hold arbitrary values. -/
structure BaseMsg where
  id : String
  content : String
  timestamp : Int
  kwargs : JObj

/-- The four message discriminants: `SystemMessage`, `HumanMessage`,
`AIMessage` (with its tool calls) and `ToolMessage` (with its originating
tool-call identifier). -/
inductive GoMsg where
  | system (base : BaseMsg)
  | human (base : BaseMsg)
  | ai (base : BaseMsg) (toolCalls : List ToolCall)
  | tool (base : BaseMsg) (toolCallID : String)

/-- The embedded `BaseMessage` of any message. -/
def baseOf : GoMsg → BaseMsg
  | .system b => b
  | .human b => b
  | .ai b _ => b
  | .tool b _ => b

/-- `GetType()`: the wire value of the discriminant (`MessageType`
constants). -/
def typeString : GoMsg → String
  | .system _ => "system"
  | .human _ => "human"
  | .ai _ _ => "ai"
  | .tool _ _ => "tool"

/-- The fixed entries each `ToJSON` writes into `data` before merging
`AdditionalKwargs`: `id`, `type`, `content`, `timestamp`, plus `tool_calls`
for an `AIMessage` when non-empty and `tool_call_id` for a `ToolMessage`. -/
def scaffoldLookup (m : GoMsg) (k : String) : Option JValue :=
  if k = "id" then some (.jstr (baseOf m).id)
  else if k = "type" then some (.jstr (typeString m))
  else if k = "content" then some (.jstr (baseOf m).content)
  else if k = "timestamp" then some (.jnum (baseOf m).timestamp)
  else if k = "tool_calls" then
    match m with
    | .ai _ tcs =>
      match tcs with
      | [] => none
      | tc :: rest => some (encodeToolCalls (tc :: rest))
    | _ => none
  else if k = "tool_call_id" then
    match m with
    | .tool _ tid => some (.jstr tid)
    | _ => none
  else none

/-- `ToJSON` of any message discriminant: the fixed `data` entries with every
`AdditionalKwargs` entry written over them (`for k, v := range kwargs`
overwrites the fixed keys on collision). -/
def toJSON (m : GoMsg) : JObj := fun k =>
  match (baseOf m).kwargs k with
  | some v => some v
  | none => scaffoldLookup m k

/-- Read a JSON string value. -/
def jstrOf : Option JValue → Option String
  | some (.jstr s) => some s
  | _ => none

/-- Read a JSON integer value. -/
def jnumOf : Option JValue → Option Int
  | some (.jnum n) => some n
  | _ => none

/-- Discriminant resolution of the modelled deserializer. -/
inductive Disc where
  | dsystem
  | dhuman
  | dai
  | dtool
  | dnone
  deriving DecidableEq

/-- Modelled from the spec: resolve the serialized discriminant.  A `"tool"`
discriminant is accepted only when the mandatory `tool_call_id` back-reference
is a string; anything else is `dnone` (deserialized as a plain system message
with the unrecognized fields kept as side metadata). -/
def discOf (o : JObj) : Disc :=
  if jstrOf (o "type") = some "system" then .dsystem
  else if jstrOf (o "type") = some "human" then .dhuman
  else if jstrOf (o "type") = some "ai" then .dai
  else if jstrOf (o "type") = some "tool" ∧ (jstrOf (o "tool_call_id")).isSome then .dtool
  else .dnone

/-- Modelled from the spec: the tool calls recovered for an `"ai"` serialized
form — the strict canonical decoding of the `tool_calls` entry when it is
present, canonical and non-empty, else none. -/
def aiToolCallsOf (o : JObj) : List ToolCall :=
  match (o "tool_calls").bind decodeToolCalls with
  | some (tc :: tcs) => tc :: tcs
  | _ => []

/-- Modelled from the spec: which serialized keys the deserializer consumes
into typed message fields; every other key returns to `AdditionalKwargs`. -/
def consumedKey (o : JObj) (k : String) : Bool :=
  if k = "id" then (jstrOf (o "id")).isSome
  else if k = "type" then decide (discOf o ≠ .dnone)
  else if k = "content" then (jstrOf (o "content")).isSome
  else if k = "timestamp" then (jnumOf (o "timestamp")).isSome
  else if k = "tool_calls" then
    decide (discOf o = .dai) && !(aiToolCallsOf o).isEmpty
  else if k = "tool_call_id" then decide (discOf o = .dtool)
  else false

/-- Modelled from the spec: the side metadata surviving deserialization — the
serialized object minus the consumed keys. -/
def residualKwargs (o : JObj) : JObj := fun k =>
  if consumedKey o k then none else o k

/-- Modelled from the spec: the common fields recovered from a serialized
form (defaults for absent or mistyped entries, which then stay in the side
metadata). -/
def deserializeBase (o : JObj) : BaseMsg :=
  { id := (jstrOf (o "id")).getD ""
    content := (jstrOf (o "content")).getD ""
    timestamp := (jnumOf (o "timestamp")).getD 0
    kwargs := residualKwargs o }

/-- Modelled from the spec: deserialize a self-describing serialized form
into the message discriminant it names (§4.2), keeping unconsumed entries as
side metadata. -/
def deserializeMsg (o : JObj) : GoMsg :=
  match discOf o with
  | .dsystem => .system (deserializeBase o)
  | .dhuman => .human (deserializeBase o)
  | .dai => .ai (deserializeBase o) (aiToolCallsOf o)
  | .dtool => .tool (deserializeBase o) ((jstrOf (o "tool_call_id")).getD "")
  | .dnone => .system (deserializeBase o)

/-- `AIMessage.GetToolCall(index)`: `nil` when the index is out of range,
else the tool call at that position (the Go `int` index is modelled as
`Int`). -/
def getToolCall (toolCalls : List ToolCall) (index : Int) : Option ToolCall :=
  if index < 0 ∨ (toolCalls.length : Int) ≤ index then none
  else toolCalls.get? index.toNat

/-! ## Shared helper lemmas -/

/-- `firstError` finds nothing on an all-`ok` slice. -/
theorem firstError_eq_none {α : Type} {l : List (Except String α)}
    (h : ∀ r ∈ l, ∃ y, r = .ok y) : firstError l = none := by
  induction l with
  | nil => rfl
  | cons r rest ih =>
    obtain ⟨y, hy⟩ := h r (by simp)
    subst hy
    exact ih fun r hr => h r (by simp [hr])

/-- `firstError` finds an error whenever the slice holds one. -/
theorem firstError_isSome {α : Type} {l : List (Except String α)}
    (h : ∃ r ∈ l, ∃ e, r = .error e) : ∃ e, firstError l = some e := by
  induction l with
  | nil => simp at h
  | cons r rest ih =>
    cases r with
    | error e => exact ⟨e, rfl⟩
    | ok y =>
      obtain ⟨r1, hr1, e1, he1⟩ := h
      rcases List.mem_cons.mp hr1 with h2 | h2
      · rw [h2] at he1; exact absurd he1 (by simp)
      · exact ih ⟨r1, h2, e1, he1⟩

/-- On an all-`ok` slice, position `i` of the collected values is the value at
position `i` of the slice. -/
theorem filterMap_toOption_get? {α : Type} {l : List (Except String α)}
    (h : ∀ r ∈ l, ∃ y, r = .ok y) :
    ∀ i, (l.filterMap Except.toOption).get? i = (l.get? i).bind Except.toOption := by
  induction l with
  | nil => intro i; rfl
  | cons r rest ih =>
    obtain ⟨y, hy⟩ := h r (by simp)
    subst hy
    intro i
    cases i with
    | zero => rfl
    | succ j =>
      simpa [List.filterMap_cons, Except.toOption] using
        ih (fun r hr => h r (by simp [hr])) j

/-! ## Claim C5: Batch ordering and fail-fast policy -/

/-- C5: for every list of N inputs, when every per-input `Invoke` succeeds
`Batch` returns the N outputs with the output at index i the result of
`Invoke` on input i; when any per-input `Invoke` errors, `Batch` returns an
error and no partial result list. -/
theorem batch_order_failfast {α β : Type} (invoke : α → Except String β) (inputs : List α) :
    ((∀ x ∈ inputs, ∃ y, invoke x = .ok y) →
      ∃ outs, BaseRunnable.batch invoke inputs = .ok outs ∧
        outs.length = inputs.length ∧
        ∀ i, outs.get? i = (inputs.get? i).bind fun x => (invoke x).toOption) ∧
    ((∃ x ∈ inputs, ∃ e, invoke x = .error e) →
      ∃ e, BaseRunnable.batch invoke inputs = .error e) := by
  constructor
  · intro h
    have hall : ∀ r ∈ inputs.map invoke, ∃ y, r = .ok y := by
      intro r hr
      obtain ⟨x, hx, hxr⟩ := List.mem_map.mp hr
      obtain ⟨y, hy⟩ := h x hx
      exact ⟨y, by rw [← hxr, hy]⟩
    refine ⟨(inputs.map invoke).filterMap Except.toOption, ?_, ?_, ?_⟩
    · unfold BaseRunnable.batch
      rw [firstError_eq_none hall]
    · have hlen : ∀ (l : List (Except String β)), (∀ r ∈ l, ∃ y, r = .ok y) →
          (l.filterMap Except.toOption).length = l.length := by
        intro l
        induction l with
        | nil => intro _; rfl
        | cons r rest ih =>
          intro hl
          obtain ⟨y, hy⟩ := hl r (by simp)
          subst hy
          simp [List.filterMap_cons, Except.toOption, ih fun r hr => hl r (by simp [hr])]
      simpa using hlen (inputs.map invoke) hall
    · intro i
      rw [filterMap_toOption_get? hall i, List.get?_map]
      cases inputs.get? i <;> rfl
  · intro h
    obtain ⟨x, hx, e, he⟩ := h
    have : ∃ e2, firstError (inputs.map invoke) = some e2 :=
      firstError_isSome ⟨invoke x, List.mem_map.mpr ⟨x, hx, rfl⟩, e, he⟩
    obtain ⟨e2, he2⟩ := this
    refine ⟨e2, ?_⟩
    unfold BaseRunnable.batch
    rw [he2]

/-- Sample invoke body: succeed with the successor. -/
def incOk : Nat → Except String Nat := fun n => .ok (n + 1)

/-- Sample invoke body: succeed with the double. -/
def double : Nat → Except String Nat := fun n => .ok (n * 2)

/-- Sample invoke body: always fail. -/
def alwaysBoom : Nat → Except String Nat := fun _ => .error "boom"

/-- Sample invoke body: fail exactly on input 3. -/
def failAt3 : Nat → Except String Nat := fun n => if n = 3 then .error "bad input" else .ok n

theorem batch_order_failfast_witness :
    (∃ outs, BaseRunnable.batch incOk [10, 20] = .ok outs ∧
      outs.length = ([10, 20] : List Nat).length ∧
      ∀ i, outs.get? i = (([10, 20] : List Nat).get? i).bind fun x => (incOk x).toOption) ∧
    (∃ e, BaseRunnable.batch failAt3 [1, 2, 3, 4, 5] = .error e) := by
  refine ⟨(batch_order_failfast incOk [10, 20]).1 ?_,
    (batch_order_failfast failAt3 [1, 2, 3, 4, 5]).2 ?_⟩
  · intro x _
    exact ⟨x + 1, rfl⟩
  · exact ⟨3, by decide, "bad input", rfl⟩

/-! ## Claim C6: Pipe composition law -/

/-- C6: `A.Pipe(B).Invoke(x)` is `B.Invoke(A.Invoke(x))` when `A` succeeds,
and when `A.Invoke(x)` errors the composite returns that error with `B` never
executed (the outcome is the same for every `B`). -/
theorem pipe_composition_law {α : Type} (a b bAlt : α → Except String α) (x : α) :
    (∀ y, a x = .ok y → BaseRunnable.pipe a b x = b y) ∧
    (∀ e, a x = .error e →
      BaseRunnable.pipe a b x = .error e ∧
      BaseRunnable.pipe a b x = BaseRunnable.pipe a bAlt x) := by
  constructor
  · intro y hy
    simp only [BaseRunnable.pipe, RunnableSequence.invoke, hy]
    cases b y <;> rfl
  · intro e he
    constructor <;> simp [BaseRunnable.pipe, RunnableSequence.invoke, he]

theorem pipe_composition_law_witness :
    (BaseRunnable.pipe incOk double 3 = double 4) ∧
    (BaseRunnable.pipe alwaysBoom double 3 = .error "boom" ∧
     BaseRunnable.pipe alwaysBoom double 3 = BaseRunnable.pipe alwaysBoom incOk 3) :=
  ⟨(pipe_composition_law incOk double incOk 3).1 4 rfl,
   (pipe_composition_law alwaysBoom double incOk 3).2 "boom" rfl⟩

/-! ## Claim C8: base Stream yields the Invoke output -/

/-- C8 counterexample: when the one `Invoke` performed by the base `Stream`
errors, the goroutine returns before sending, so the channel closes after
zero items — not "exactly one item for every invocation" as claimed. -/
theorem stream_error_counterexample :
    BaseRunnable.stream alwaysBoom 0 = [] ∧ ([] : List Nat).length ≠ 1 :=
  ⟨rfl, by decide⟩

/-- C8 (amended): the base `Stream` performs one full `Invoke` and yields
exactly one item — the `Invoke` output — when that `Invoke` succeeds; when it
errors, the sequence terminates after zero items and the error is dropped. -/
theorem stream_single_item {α β : Type} (invoke : α → Except String β) (x : α) :
    (∀ y, invoke x = .ok y → BaseRunnable.stream invoke x = [y]) ∧
    (∀ e, invoke x = .error e → BaseRunnable.stream invoke x = []) := by
  constructor
  · intro y h
    simp [BaseRunnable.stream, h]
  · intro e h
    simp [BaseRunnable.stream, h]

theorem stream_single_item_witness :
    (BaseRunnable.stream incOk 5 = [6]) ∧ (BaseRunnable.stream alwaysBoom 5 = []) :=
  ⟨(stream_single_item incOk 5).1 6 rfl, (stream_single_item alwaysBoom 5).2 "boom" rfl⟩

/-! ## Claim C10: GetToolCall bounds behavior -/

/-- C10: `GetToolCall(i)` returns `nil` when `i` is out of range and the tool
call at position `i` otherwise; the bounds check makes the slice access safe
for every index. -/
theorem getToolCall_bounds (tcs : List ToolCall) (i : Int) :
    ((i < 0 ∨ (tcs.length : Int) ≤ i) → getToolCall tcs i = none) ∧
    (0 ≤ i → i < (tcs.length : Int) →
      ∃ tc, getToolCall tcs i = some tc ∧ tcs.get? i.toNat = some tc) := by
  constructor
  · intro h
    unfold getToolCall
    exact if_pos h
  · intro h0 hlt
    unfold getToolCall
    rw [if_neg (by push_neg; exact ⟨h0, hlt⟩)]
    have hn : i.toNat < tcs.length := by omega
    exact ⟨tcs.get ⟨i.toNat, hn⟩, by rw [List.get?_eq_get hn], by rw [List.get?_eq_get hn]⟩

/-- A sample tool call for the witness. -/
def sampleToolCall : ToolCall := ⟨"call_1", "function", ⟨"calculator", "2+2"⟩, []⟩

theorem getToolCall_bounds_witness :
    (getToolCall [sampleToolCall] 5 = none) ∧
    (∃ tc, getToolCall [sampleToolCall] 0 = some tc ∧
      [sampleToolCall].get? (0 : Int).toNat = some tc) :=
  ⟨(getToolCall_bounds [sampleToolCall] 5).1 (Or.inr (by decide)),
   (getToolCall_bounds [sampleToolCall] 0).2 (by decide) (by decide)⟩

/-! ## Claim C7: observer-error reporting -/

/-- A callback whose `OnEnd` hook fails. -/
def cbEndFail : GoCallback Nat String :=
  ⟨fun _ => none, fun _ => some "on-end boom", fun _ => none⟩

/-- A config carrying only `cbEndFail`. -/
def cfgEndFail : GoConfig Nat String := ⟨[cbEndFail], [], [], 3, 0⟩

/-- A callback whose `OnError` hook fails. -/
def cbErrFail : GoCallback Nat String :=
  ⟨fun _ => none, fun _ => none, fun _ => some "cb-err"⟩

/-- A config carrying only `cbErrFail`. -/
def cfgErrFail : GoConfig Nat String := ⟨[cbErrFail], [], [], 3, 0⟩

/-- C7 counterexample: the unit's own logic succeeds with output `"out"`, the
`OnEnd` observer fails, and `Invoke` returns the bare observer error — the
unit's output is discarded, not wrapped with the observer error. -/
theorem invoke_onEnd_counterexample :
    BaseRunnable.invoke (fun _ : Nat => Except.ok "out") (some cfgEndFail) 0 =
      .error "on-end boom" := rfl

/-- C7 (amended): when the unit's own logic fails and an `OnError` observer
also fails, `Invoke` wraps the two errors together
(`"callback error: <cb>, original error: <orig>"`); but when the unit
succeeds and an `OnEnd` observer fails, `Invoke` returns the observer error
alone and the unit's output is discarded. -/
theorem invoke_callback_error_handling {α β : Type} (call : α → Except String β)
    (cfg : GoConfig α β) (x : α) (hstart : handleStart cfg.callbacks x = none) :
    (∀ e ce, call x = .error e → handleError cfg.callbacks e = some ce →
      BaseRunnable.invoke call (some cfg) x =
        .error ("callback error: " ++ ce ++ ", original error: " ++ e)) ∧
    (∀ y ce, call x = .ok y → handleEnd cfg.callbacks y = some ce →
      BaseRunnable.invoke call (some cfg) x = .error ce) := by
  constructor
  · intro e ce h1 h2
    simp [BaseRunnable.invoke, hstart, h1, h2]
  · intro y ce h1 h2
    simp [BaseRunnable.invoke, hstart, h1, h2]

theorem invoke_callback_error_handling_witness :
    (BaseRunnable.invoke (fun _ : Nat => (Except.error "orig" : Except String String))
        (some cfgErrFail) 0 =
      .error ("callback error: " ++ "cb-err" ++ ", original error: " ++ "orig")) ∧
    (BaseRunnable.invoke (fun _ : Nat => (Except.ok "out" : Except String String))
        (some cfgEndFail) 0 = .error "on-end boom") :=
  ⟨(invoke_callback_error_handling _ cfgErrFail 0 rfl).1 "orig" "cb-err" rfl rfl,
   (invoke_callback_error_handling _ cfgEndFail 0 rfl).2 "out" "on-end boom" rfl rfl⟩

/-! ## Claim C2: which marker line wins in parseAction -/

/-- C2 counterexample: on a response with two `"Action:"` lines, the parsed
action is the one on the second (last) line, not the first. -/
theorem parseAction_first_counterexample :
    parseAction "Action: one\nAction: two" = ("two", "") ∧ ("two" : String) ≠ "one" :=
  ⟨by decide, by decide⟩

/-- A line scanned into the `Action Input:` branch: it reaches the `else if`
(no `"Action:"` match) and matches the `"Action Input:"` marker. -/
def isActionInputLine (line : List Char) : Bool :=
  !("Action:".data.isPrefixOf line) && "Action Input:".data.isPrefixOf line

/-- A line that does not match the action marker leaves the parsed action
unchanged. -/
theorem parseActionLine_fst_of_neg (acc : String × String) (line : List Char)
    (h : "Action:".data.isPrefixOf line = false) :
    (parseActionLine acc line).1 = acc.1 := by
  unfold parseActionLine
  simp only [h, Bool.false_eq_true, if_false]
  split <;> rfl

/-- A line that does not reach the `Action Input:` branch leaves the parsed
argument text unchanged. -/
theorem parseActionLine_snd_of_neg (acc : String × String) (line : List Char)
    (h : isActionInputLine line = false) :
    (parseActionLine acc line).2 = acc.2 := by
  unfold parseActionLine
  unfold isActionInputLine at h
  cases hp : "Action:".data.isPrefixOf line with
  | true => simp [hp]
  | false =>
    simp only [hp, Bool.not_false, Bool.true_and] at h
    simp [hp, h]

/-- The action produced by the line scan is the trimmed content of the last
line matching the action marker. -/
theorem parseAction_foldl_fst (lines : List (List Char)) (acc : String × String) :
    (lines.foldl parseActionLine acc).1 =
      (match lines.reverse.find? (fun l => "Action:".data.isPrefixOf l) with
       | some line => (⟨goTrimSpace (line.drop "Action:".data.length)⟩ : String)
       | none => acc.1) := by
  induction lines generalizing acc with
  | nil => rfl
  | cons l ls ih =>
    simp only [List.foldl_cons, List.reverse_cons, List.find?_append]
    rw [ih]
    cases hf : ls.reverse.find? (fun l => "Action:".data.isPrefixOf l) with
    | some l2 => rfl
    | none =>
      cases hp : "Action:".data.isPrefixOf l with
      | true =>
        simp only [Option.none_or, List.find?, hp]
        unfold parseActionLine
        simp [hp]
      | false =>
        simp only [Option.none_or, List.find?, hp]
        exact parseActionLine_fst_of_neg acc l hp

/-- The argument text produced by the line scan is the trimmed content of the
last line reaching the `Action Input:` branch. -/
theorem parseAction_foldl_snd (lines : List (List Char)) (acc : String × String) :
    (lines.foldl parseActionLine acc).2 =
      (match lines.reverse.find? isActionInputLine with
       | some line => (⟨goTrimSpace (line.drop "Action Input:".data.length)⟩ : String)
       | none => acc.2) := by
  induction lines generalizing acc with
  | nil => rfl
  | cons l ls ih =>
    simp only [List.foldl_cons, List.reverse_cons, List.find?_append]
    rw [ih]
    cases hf : ls.reverse.find? isActionInputLine with
    | some l2 => rfl
    | none =>
      cases hp : isActionInputLine l with
      | true =>
        simp only [Option.none_or, List.find?, hp]
        have h2 := hp
        unfold isActionInputLine at h2
        rw [Bool.and_eq_true] at h2
        obtain ⟨h2a, h2b⟩ := h2
        rw [Bool.not_eq_true'] at h2a
        unfold parseActionLine
        simp [h2a, h2b]
      | false =>
        simp only [Option.none_or, List.find?, hp]
        exact parseActionLine_snd_of_neg acc l hp

/-- C2 (amended): `parseAction` extracts the action from the LAST line
beginning with `"Action:"` and the argument text from the LAST line reaching
the `"Action Input:"` branch — each matching line overwrites the previous
value, so for a response with two or more `"Action:"` lines the action
executed is the one on the last such line. -/
theorem parseAction_last_wins (response : String) :
    (parseAction response).1 =
      (match (splitOnChar '\n' response.data).reverse.find?
          (fun l => "Action:".data.isPrefixOf l) with
       | some line => (⟨goTrimSpace (line.drop "Action:".data.length)⟩ : String)
       | none => "") ∧
    (parseAction response).2 =
      (match (splitOnChar '\n' response.data).reverse.find? isActionInputLine with
       | some line => (⟨goTrimSpace (line.drop "Action Input:".data.length)⟩ : String)
       | none => "") :=
  ⟨parseAction_foldl_fst _ _, parseAction_foldl_snd _ _⟩

/-! ## Claim C3: empty parsed action name -/

/-- A model that always answers with a bare action marker (empty action
name). -/
def modelEmptyAction : String → Except String String := fun _ => .ok "Action:"

/-- A model that always requests a tool that is not registered. -/
def modelMissingTool : String → Except String String := fun _ => .ok "Action: nonexistent"

/-- A model that always answers with a final answer. -/
def modelFinal : String → Except String String := fun _ => .ok "Final Answer: 42"

/-- An argument decoder that accepts everything as an empty bundle. -/
def decodeNone : ArgDecoder := fun _ => .ok []

/-- C3 counterexample: on a response that is exactly `"Action:"` (empty
action name after trimming), the loop does NOT treat the response as a plain
reasoning fragment — it invokes the tool executor with the empty name, whose
`"tool not found: "` error lands in the scratchpad as the observation, and
continues. -/
theorem react_empty_action_counterexample :
    (runReAct modelEmptyAction [] decodeNone "q" 1).scratch =
      ["Action:", "Error: tool not found: "] ∧
    (runReAct modelEmptyAction [] decodeNone "q" 1).result =
      .error "max iterations reached without final answer" :=
  ⟨rfl, rfl⟩

/-- C3 (amended): when the response contains the action marker but the
extracted action name is empty after trimming, the loop still performs the
Acting step — the Tool Executor is invoked with the empty action name (its
result or error becomes the observation) and no parse error is raised. -/
theorem react_empty_action_acts (model : String → Except String String) (reg : List GoTool)
    (decode : ArgDecoder) (prompt : String) (scratch : List String) (fuel : Nat)
    (resp : String) (hresp : model prompt = .ok resp)
    (hact : goContains resp "Action:" = true) (hempty : (parseAction resp).1 = "") :
    runLoop model reg decode (fuel + 1) prompt scratch =
      (let observation :=
        match executeTool decode reg "" (parseAction resp).2 with
        | .ok s => s
        | .error e => "Error: " ++ e
      let out := runLoop model reg decode fuel
        (prompt ++ "\nObservation: " ++ observation ++ "\n\nThought:")
        ((scratch ++ [resp]) ++ [observation])
      ⟨out.result, out.scratch, out.llmCalls + 1⟩) := by
  simp only [runLoop, hresp, hact, hempty, if_true]

theorem react_empty_action_acts_witness :
    modelEmptyAction "p" = .ok "Action:" ∧
    goContains "Action:" "Action:" = true ∧
    (parseAction "Action:").1 = "" ∧
    runLoop modelEmptyAction [] decodeNone (0 + 1) "p" [] =
      (let observation :=
        match executeTool decodeNone [] "" (parseAction "Action:").2 with
        | .ok s => s
        | .error e => "Error: " ++ e
      let out := runLoop modelEmptyAction [] decodeNone 0
        ("p" ++ "\nObservation: " ++ observation ++ "\n\nThought:")
        (([] ++ ["Action:"]) ++ [observation])
      ⟨out.result, out.scratch, out.llmCalls + 1⟩) :=
  ⟨rfl, rfl, by decide,
    react_empty_action_acts modelEmptyAction [] decodeNone "p" [] 0 "Action:" rfl rfl
      (by decide)⟩

/-! ## Claim C4: executor errors are non-fatal observations -/

/-- C4: whenever the model response contains the action marker and the Tool
Executor returns an error — tool not found, argument decode failure or tool
execution failure — `Run` does not fail: the error is rendered as the
observation text `"Error: <message>"`, appended to the prompt as an
Observation, and the loop proceeds to the next reasoning iteration. -/
theorem react_tool_error_nonfatal (model : String → Except String String) (reg : List GoTool)
    (decode : ArgDecoder) (prompt : String) (scratch : List String) (fuel : Nat)
    (resp e : String) (hresp : model prompt = .ok resp)
    (hact : goContains resp "Action:" = true)
    (herr : executeTool decode reg (parseAction resp).1 (parseAction resp).2 = .error e) :
    runLoop model reg decode (fuel + 1) prompt scratch =
      (let out := runLoop model reg decode fuel
        (prompt ++ "\nObservation: " ++ ("Error: " ++ e) ++ "\n\nThought:")
        ((scratch ++ [resp]) ++ ["Error: " ++ e])
      ⟨out.result, out.scratch, out.llmCalls + 1⟩) := by
  simp only [runLoop, hresp, hact, herr, if_true]

theorem react_tool_error_nonfatal_witness :
    modelMissingTool "p" = .ok "Action: nonexistent" ∧
    goContains "Action: nonexistent" "Action:" = true ∧
    executeTool decodeNone [] (parseAction "Action: nonexistent").1
      (parseAction "Action: nonexistent").2 = .error "tool not found: nonexistent" ∧
    runLoop modelMissingTool [] decodeNone (0 + 1) "p" [] =
      (let out := runLoop modelMissingTool [] decodeNone 0
        ("p" ++ "\nObservation: " ++ ("Error: " ++ "tool not found: nonexistent") ++ "\n\nThought:")
        (([] ++ ["Action: nonexistent"]) ++ ["Error: " ++ "tool not found: nonexistent"])
      ⟨out.result, out.scratch, out.llmCalls + 1⟩) :=
  ⟨rfl, rfl, rfl,
    react_tool_error_nonfatal modelMissingTool [] decodeNone "p" [] 0 "Action: nonexistent"
      "tool not found: nonexistent" rfl rfl rfl⟩

/-! ## Claim C1: iteration bound and result trichotomy -/

/-- Every run of the loop performs at most `fuel` model invocations, and its
result is an extracted final answer, a fatal model-invocation error, or the
exhaustion error. -/
theorem runLoop_spec (model : String → Except String String) (reg : List GoTool)
    (decode : ArgDecoder) :
    ∀ (fuel : Nat) (prompt : String) (scratch : List String),
      (runLoop model reg decode fuel prompt scratch).llmCalls ≤ fuel ∧
      ((∃ a, (runLoop model reg decode fuel prompt scratch).result = .ok a) ∨
       (∃ e, (runLoop model reg decode fuel prompt scratch).result =
          .error ("LLM invocation failed: " ++ e)) ∨
       (runLoop model reg decode fuel prompt scratch).result =
         .error "max iterations reached without final answer") := by
  intro fuel
  induction fuel with
  | zero =>
    intro prompt scratch
    exact ⟨Nat.le_refl 0, Or.inr (Or.inr rfl)⟩
  | succ n ih =>
    intro prompt scratch
    cases hm : model prompt with
    | error e =>
      simp only [runLoop, hm]
      exact ⟨Nat.succ_le_succ (Nat.zero_le n), Or.inr (Or.inl ⟨e, rfl⟩)⟩
    | ok resp =>
      simp only [runLoop, hm]
      split
      · exact ⟨Nat.succ_le_succ (ih _ _).1, (ih _ _).2⟩
      · split
        · exact ⟨Nat.succ_le_succ (Nat.zero_le n), Or.inl ⟨extractFinalAnswer resp, rfl⟩⟩
        · exact ⟨Nat.succ_le_succ (ih _ _).1, (ih _ _).2⟩

/-- C1: for every iteration budget `k > 0`, `Run` performs at most `k`
reasoning cycles (model invocations) and returns either the extracted final
answer, or a fatal model-invocation error, or — when no cycle reaches a
final answer — the error `"max iterations reached without final answer"`. -/
theorem react_iteration_bound (model : String → Except String String) (reg : List GoTool)
    (decode : ArgDecoder) (query : String) (k : Nat) (_hk : 0 < k) :
    (runReAct model reg decode query k).llmCalls ≤ k ∧
    ((∃ a, (runReAct model reg decode query k).result = .ok a) ∨
     (∃ e, (runReAct model reg decode query k).result =
        .error ("LLM invocation failed: " ++ e)) ∨
     (runReAct model reg decode query k).result =
       .error "max iterations reached without final answer") :=
  runLoop_spec model reg decode k _ []

theorem react_iteration_bound_witness :
    0 < 1 ∧
    ((runReAct modelFinal [] decodeNone "q" 1).llmCalls ≤ 1 ∧
     ((∃ a, (runReAct modelFinal [] decodeNone "q" 1).result = .ok a) ∨
      (∃ e, (runReAct modelFinal [] decodeNone "q" 1).result =
         .error ("LLM invocation failed: " ++ e)) ∨
      (runReAct modelFinal [] decodeNone "q" 1).result =
        .error "max iterations reached without final answer")) :=
  ⟨by decide, react_iteration_bound modelFinal [] decodeNone "q" 1 (by decide)⟩

/-! ## Claim C9: serialization round trip -/

/-- Values accepted by the strict canonical decoder are exactly re-encoded.
(Function object level.) -/
theorem encode_of_decodeToolCallFunction {v : JValue} {f : ToolCallFunction}
    (h : decodeToolCallFunction v = some f) :
    JValue.jobj [("name", .jstr f.name), ("arguments", .jstr f.arguments)] = v := by
  unfold decodeToolCallFunction at h
  split at h
  · cases h
    rfl
  · cases h

/-- Values accepted by the strict canonical decoder are exactly re-encoded.
(Tool-call level.) -/
theorem encode_of_decodeToolCall {v : JValue} {tc : ToolCall}
    (h : decodeToolCall v = some tc) : encodeToolCall tc = v := by
  unfold decodeToolCall at h
  split at h
  · rename_i i t fv
    cases hf : decodeToolCallFunction fv with
    | none => rw [hf] at h; cases h
    | some f =>
      rw [hf] at h
      cases h
      have := encode_of_decodeToolCallFunction hf
      unfold encodeToolCall
      simp only [← this]
      rfl
  · rename_i i t fv p ps
    cases hf : decodeToolCallFunction fv with
    | none => rw [hf] at h; cases h
    | some f =>
      rw [hf] at h
      cases h
      have := encode_of_decodeToolCallFunction hf
      unfold encodeToolCall
      simp only [← this]
      rfl
  · cases h

/-- Values accepted by the strict canonical decoder are exactly re-encoded.
(List level.) -/
theorem encode_of_decodeToolCallList {l : List JValue} {tcs : List ToolCall}
    (h : decodeToolCallList l = some tcs) : tcs.map encodeToolCall = l := by
  induction l generalizing tcs with
  | nil =>
    unfold decodeToolCallList at h
    cases h
    rfl
  | cons v rest ih =>
    unfold decodeToolCallList at h
    cases hv : decodeToolCall v with
    | none => rw [hv] at h; cases h
    | some tc =>
      rw [hv] at h
      cases hr : decodeToolCallList rest with
      | none => rw [hr] at h; cases h
      | some tcs2 =>
        rw [hr] at h
        cases h
        simp only [List.map_cons, encode_of_decodeToolCall hv, ih hr]

/-- Values accepted by the strict canonical decoder are exactly re-encoded.
(Array level.) -/
theorem encode_of_decodeToolCalls {v : JValue} {tcs : List ToolCall}
    (h : decodeToolCalls v = some tcs) : encodeToolCalls tcs = v := by
  unfold decodeToolCalls at h
  split at h
  · rename_i elems
    unfold encodeToolCalls
    rw [encode_of_decodeToolCallList h]
  · cases h

/-- Inversion for `jstrOf`. -/
theorem jstrOf_eq_some {x : Option JValue} {s : String} (h : jstrOf x = some s) :
    x = some (.jstr s) := by
  unfold jstrOf at h
  split at h
  · cases h; rfl
  · cases h

/-- Inversion for `jnumOf`. -/
theorem jnumOf_eq_some {x : Option JValue} {n : Int} (h : jnumOf x = some n) :
    x = some (.jnum n) := by
  unfold jnumOf at h
  split at h
  · cases h; rfl
  · cases h

/-- Inversion: a `dsystem` resolution pins the serialized type entry. -/
theorem discOf_eq_dsystem {o : JObj} (h : discOf o = .dsystem) :
    jstrOf (o "type") = some "system" := by
  unfold discOf at h
  split_ifs at h
  assumption

/-- Inversion: a `dhuman` resolution pins the serialized type entry. -/
theorem discOf_eq_dhuman {o : JObj} (h : discOf o = .dhuman) :
    jstrOf (o "type") = some "human" := by
  unfold discOf at h
  split_ifs at h
  assumption

/-- Inversion: a `dai` resolution pins the serialized type entry. -/
theorem discOf_eq_dai {o : JObj} (h : discOf o = .dai) :
    jstrOf (o "type") = some "ai" := by
  unfold discOf at h
  split_ifs at h
  assumption

/-- Inversion: a `dtool` resolution pins the serialized type entry and the
presence of a string `tool_call_id`. -/
theorem discOf_eq_dtool {o : JObj} (h : discOf o = .dtool) :
    jstrOf (o "type") = some "tool" ∧ (jstrOf (o "tool_call_id")).isSome = true := by
  unfold discOf at h
  split_ifs at h with h1 h2 h3 h4
  exact ⟨h4.1, h4.2⟩


/-- A non-empty recovered tool-call list comes from a present, canonically
decodable `tool_calls` entry. -/
theorem aiToolCallsOf_spec {o : JObj} (h : aiToolCallsOf o ≠ []) :
    ∃ v, o "tool_calls" = some v ∧ decodeToolCalls v = some (aiToolCallsOf o) := by
  unfold aiToolCallsOf at h ⊢
  cases hb : (o "tool_calls").bind decodeToolCalls with
  | none => rw [hb] at h; simp at h
  | some tcs =>
    rw [hb] at h
    cases tcs with
    | nil => simp at h
    | cons tc rest =>
      obtain ⟨v, hv, hd⟩ := Option.bind_eq_some.mp hb
      exact ⟨v, hv, hd⟩

/-- The deserialized message embeds the recovered base fields, for every
discriminant. -/
theorem baseOf_deserializeMsg (o : JObj) : baseOf (deserializeMsg o) = deserializeBase o := by
  unfold deserializeMsg
  split <;> rfl

/-- A key the deserializer consumed is reproduced exactly by the fixed
entries of the reserialization. -/
theorem scaffold_eq_of_consumed (o : JObj) (k : String) (h : consumedKey o k = true) :
    scaffoldLookup (deserializeMsg o) k = o k := by
  by_cases hk1 : k = "id"
  · subst hk1
    simp only [consumedKey] at h
    norm_num at h
    obtain ⟨s, hs⟩ := Option.isSome_iff_exists.mp h
    rw [jstrOf_eq_some hs]
    simp [scaffoldLookup, baseOf_deserializeMsg, deserializeBase, hs]
  by_cases hk2 : k = "type"
  · subst hk2
    simp only [consumedKey] at h
    norm_num at h
    cases hd : discOf o with
    | dnone => exact absurd hd h
    | dsystem =>
      rw [jstrOf_eq_some (discOf_eq_dsystem hd)]
      simp [scaffoldLookup, deserializeMsg, hd, typeString]
    | dhuman =>
      rw [jstrOf_eq_some (discOf_eq_dhuman hd)]
      simp [scaffoldLookup, deserializeMsg, hd, typeString]
    | dai =>
      rw [jstrOf_eq_some (discOf_eq_dai hd)]
      simp [scaffoldLookup, deserializeMsg, hd, typeString]
    | dtool =>
      rw [jstrOf_eq_some (discOf_eq_dtool hd).1]
      simp [scaffoldLookup, deserializeMsg, hd, typeString]
  by_cases hk3 : k = "content"
  · subst hk3
    simp only [consumedKey] at h
    norm_num at h
    obtain ⟨s, hs⟩ := Option.isSome_iff_exists.mp h
    rw [jstrOf_eq_some hs]
    simp [scaffoldLookup, baseOf_deserializeMsg, deserializeBase, hs]
  by_cases hk4 : k = "timestamp"
  · subst hk4
    simp only [consumedKey] at h
    norm_num at h
    obtain ⟨n, hn⟩ := Option.isSome_iff_exists.mp h
    rw [jnumOf_eq_some hn]
    simp [scaffoldLookup, baseOf_deserializeMsg, deserializeBase, hn]
  by_cases hk5 : k = "tool_calls"
  · subst hk5
    simp only [consumedKey] at h
    norm_num at h
    obtain ⟨hdai, hne⟩ := h
    have hne2 : aiToolCallsOf o ≠ [] := by simpa using hne
    obtain ⟨v, hv, hdv⟩ := aiToolCallsOf_spec hne2
    rw [hv]
    cases hts : aiToolCallsOf o with
    | nil => exact absurd hts hne2
    | cons tc rest =>
      rw [hts] at hdv
      have henc := encode_of_decodeToolCalls hdv
      simp [scaffoldLookup, deserializeMsg, hdai, hts, henc]
  by_cases hk6 : k = "tool_call_id"
  · subst hk6
    simp only [consumedKey] at h
    norm_num at h
    have hd : discOf o = Disc.dtool := h
    obtain ⟨s, hs⟩ := Option.isSome_iff_exists.mp (discOf_eq_dtool hd).2
    rw [jstrOf_eq_some hs]
    simp [scaffoldLookup, deserializeMsg, hd, hs]
  · exfalso
    simp [consumedKey, hk1, hk2, hk3, hk4, hk5, hk6] at h

/-- A key the deserializer did not consume and that is absent from the
serialized form is not re-created by the fixed entries of the
reserialization (given the four always-present entries). -/
theorem scaffold_eq_none_of_not_consumed (o : JObj) (k : String)
    (h : consumedKey o k = false) (hk : o k = none)
    (hid : o "id" ≠ none) (hty : o "type" ≠ none) (hct : o "content" ≠ none)
    (hts : o "timestamp" ≠ none) :
    scaffoldLookup (deserializeMsg o) k = none := by
  by_cases hk1 : k = "id"
  · subst hk1; exact absurd hk hid
  by_cases hk2 : k = "type"
  · subst hk2; exact absurd hk hty
  by_cases hk3 : k = "content"
  · subst hk3; exact absurd hk hct
  by_cases hk4 : k = "timestamp"
  · subst hk4; exact absurd hk hts
  by_cases hk5 : k = "tool_calls"
  · subst hk5
    have hnil : aiToolCallsOf o = [] := by
      unfold aiToolCallsOf
      rw [hk]
      rfl
    cases hd : discOf o <;> simp [scaffoldLookup, deserializeMsg, hd, hnil]
  by_cases hk6 : k = "tool_call_id"
  · subst hk6
    have hnd : discOf o ≠ Disc.dtool := by
      intro hd
      have h2 := (discOf_eq_dtool hd).2
      rw [hk] at h2
      simp [jstrOf] at h2
    cases hd : discOf o <;> simp [scaffoldLookup, deserializeMsg, hd] <;>
      exact absurd hd hnd
  · simp [scaffoldLookup, hk1, hk2, hk3, hk4, hk5, hk6]

/-- Reserializing the deserialization of any serialized form carrying the
four always-written entries reproduces it exactly. -/
theorem toJSON_deserializeMsg (o : JObj) (hid : o "id" ≠ none) (hty : o "type" ≠ none)
    (hct : o "content" ≠ none) (hts : o "timestamp" ≠ none) :
    toJSON (deserializeMsg o) = o := by
  funext k
  show (match (baseOf (deserializeMsg o)).kwargs k with
    | some v => some v
    | none => scaffoldLookup (deserializeMsg o) k) = o k
  rw [baseOf_deserializeMsg]
  show (match residualKwargs o k with
    | some v => some v
    | none => scaffoldLookup (deserializeMsg o) k) = o k
  by_cases hc : consumedKey o k = true
  · rw [show residualKwargs o k = none from by simp [residualKwargs, hc]]
    exact scaffold_eq_of_consumed o k hc
  · have hcf : consumedKey o k = false := by simpa using hc
    rw [show residualKwargs o k = o k from by simp [residualKwargs, hcf]]
    cases ho : o k with
    | some v => rfl
    | none => exact scaffold_eq_none_of_not_consumed o k hcf ho hid hty hct hts

/-- Every `ToJSON` output carries a key whose fixed entry is written. -/
theorem toJSON_present (m : GoMsg) (k : String) (hs : scaffoldLookup m k ≠ none) :
    toJSON m k ≠ none := by
  unfold toJSON
  cases (baseOf m).kwargs k with
  | some v => simp
  | none => simpa using hs

/-- C9: for every message of every discriminant, serializing, deserializing
the result, and serializing again yields the same serialized form
(`json.Marshal` with sorted keys is injective up to map equality, so the
serialized form is the key-to-value map itself). -/
theorem serialize_roundtrip (m : GoMsg) :
    toJSON (deserializeMsg (toJSON m)) = toJSON m :=
  toJSON_deserializeMsg (toJSON m)
    (toJSON_present m "id" (by simp [scaffoldLookup]))
    (toJSON_present m "type" (by simp [scaffoldLookup]))
    (toJSON_present m "content" (by simp [scaffoldLookup]))
    (toJSON_present m "timestamp" (by simp [scaffoldLookup]))
